import Mathlib

/-!
Verification of the Fourier-based option pricing notebook
(`08_dx_fourier_pricing.ipynb`) of the dx repository.

The notebook benchmarks Monte Carlo value estimates (from the external dx
simulation engine) against Fourier/analytical reference prices on a grid of
maturities and strikes.  This file embeds the notebook's benchmarking
harness, its grid construction and its date arithmetic, together with
spec-modelled versions of the parts of the dx library that the notebook
calls but whose code is not part of the sources given here.

All notebook dates lie in the year 2015 (not a leap year), so dates are
modelled as (month, day) pairs within 2015.

Monetary values are modelled as rationals; the transcendental quantities of
the pricing formulas (the discount factor exp(-r*T) and the value of the
Fourier integral) are abstracted as parameters where the dx library code
that computes them is outside the given sources.
-/

/-- A calendar date inside the year 2015 (month 1..12, day 1..31). -/
structure Date where
  month : Nat
  day : Nat
deriving DecidableEq, Repr

/-- Number of days of a month in 2015 (2015 is not a leap year). -/
def daysInMonth : Nat → Nat
  | 1 => 31 | 2 => 28 | 3 => 31 | 4 => 30 | 5 => 31 | 6 => 30
  | 7 => 31 | 8 => 31 | 9 => 30 | 10 => 31 | 11 => 30 | 12 => 31
  | _ => 0

/-- Ordinal of a date within 2015 (2015-01-01 has ordinal 1). -/
def Date.dayOfYear (d : Date) : Nat :=
  ((List.range (d.month - 1)).map (fun i => daysInMonth (i + 1))).sum + d.day

/-- Embedding of Python's `(d2 - d1).days` for datetime values:
the signed number of days between two dates. -/
def Date.daysFrom (d2 d1 : Date) : Int :=
  (d2.dayOfYear : Int) - (d1.dayOfYear : Int)

/-- Last day of a month of 2015. -/
def monthEnd (m : Nat) : Date := ⟨m, daysInMonth m⟩

/-- Embedding of `pd.date_range(start=start_date, freq='2m', periods=periods)`:
pandas' `'2m'` frequency is month-END frequency, so starting from a day
inside a month the range rolls forward to the month ends spaced two months
apart (for start 2015-03-01: 2015-03-31, 2015-05-31, 2015-07-31, which is
what the notebook's reference output records as T = 0.244, 0.411, 0.578). -/
def dateRange2M (startMonth : Nat) (periods : Nat) : List Date :=
  (List.range periods).map (fun k => monthEnd (startMonth + 2 * k))

/-- The slice of the shared option market environment `me_option` that the
benchmarking code reads or writes: the pricing date (set at construction,
never mutated), and the 'maturity' and 'strike' constants (mutated in place
by `add_constant` during the runs).  The other constants (currency, model
parameters, valuation environment) never change and are irrelevant here. -/
structure MarketEnv where
  pricing_date : Date
  maturity : Date
  strike : ℚ
deriving DecidableEq, Repr

/-- Embedding of `me_option.add_constant('maturity', m)`: keyed overwrite. -/
def MarketEnv.add_maturity (e : MarketEnv) (m : Date) : MarketEnv :=
  ⟨e.pricing_date, m, e.strike⟩

/-- Embedding of `me_option.add_constant('strike', k)`: keyed overwrite. -/
def MarketEnv.add_strike (e : MarketEnv) (k : ℚ) : MarketEnv :=
  ⟨e.pricing_date, e.maturity, k⟩

/-- The option market environment of the notebook: pricing date 2015-01-01,
constants maturity = 2015-12-31 and strike = 100 at construction. -/
def me_option : MarketEnv := ⟨⟨1, 1⟩, ⟨12, 31⟩, 100⟩

/-! Grid parameters, from the notebook cell
`freq = '2m'; periods = 3; strikes = 5; initial_value = 100; start = 0.8;
end = 1.2; start_date = '2015/3/1'`.  The source names `start` and `end`
are Lean keywords and are rendered `strike_low` and `strike_high`. -/

def periods : Nat := 3

def strikes : Nat := 5

def initial_value : ℚ := 100

def strike_low : ℚ := 0.8

def strike_high : ℚ := 1.2

def start_date : Date := ⟨3, 1⟩

/-- Embedding of `np.linspace(a, b, n)`: n equally spaced points from a to b. -/
def linspace (a b : ℚ) (n : Nat) : List ℚ :=
  (List.range n).map (fun k => a + (b - a) * k / (n - 1))

/-- The strike grid `np.linspace(start, end, strikes) * initial_value`. -/
def strikesList : List ℚ :=
  (linspace strike_low strike_high strikes).map (fun x => x * initial_value)

/-- One line of the benchmark report, holding the exact (pre-formatting)
values printed by the harness: year fraction T, strike, Monte Carlo price,
Fourier/analytical reference price, absolute and relative difference. -/
structure Row where
  T : ℚ
  strike : ℚ
  mcs : ℚ
  fou : ℚ
  dif : ℚ
  rel : ℚ
deriving DecidableEq, Repr

/-- Round a rational to n decimal digits, modelling the decimal rounding the
`%x.nf` format specifiers apply for display. -/
def roundTo (n : Nat) (q : ℚ) : ℚ := (round (q * 10 ^ n) : ℚ) / 10 ^ n

/-- Columns of a printed report line of `valuation_benchmarking`, in order,
with the digit counts of its format string
(T and strike 3 decimals, mcs / fou / dif 4 decimals, rel 3 decimals;
the earlier inline GBM loops print rel with 2 decimals instead). -/
def Row.printed (r : Row) : List ℚ :=
  [roundTo 3 r.T, roundTo 3 r.strike, roundTo 4 r.mcs, roundTo 4 r.fou,
   roundTo 4 r.dif, roundTo 3 r.rel]

/-- Inner loop of `valuation_benchmarking` over the strike grid, for a fixed
maturity.  Python exceptions raised by `present_value` (the Monte Carlo
estimator, an oracle indexed by the maturity and strike it was updated to)
or by the Fourier pricing function are modelled by `Except`; an error stops
the loop and is propagated.  The loop threads the mutable shared environment
`me_option` and accumulates the printed rows.  Mirrors the statement order of
the source: T is computed, the Monte Carlo estimate is obtained, then the
strike is written into the shared environment and the Fourier function is
applied to it, then the row is printed. -/
def benchInner {ε : Type} (mcs : Date → ℚ → Except ε ℚ)
    (fou : MarketEnv → Except ε ℚ) (maturity : Date) :
    List ℚ → MarketEnv → List Row → MarketEnv × List Row × Option ε
  | [], e, acc => (e, acc, none)
  | k :: ks, e, acc =>
    let T : ℚ := (maturity.daysFrom e.pricing_date : ℚ) / 365
    match mcs maturity k with
    | .error err => (e, acc, some err)
    | .ok mc =>
      let e' := e.add_strike k
      match fou e' with
      | .error err => (e', acc, some err)
      | .ok fo =>
        benchInner mcs fou maturity ks e'
          (acc ++ [⟨T, k, mc, fo, mc - fo, (mc - fo) / fo * 100⟩])

/-- Outer loop of `valuation_benchmarking` over the maturity grid: per
maturity the valuation object and the shared environment are updated to the
new maturity, then the strike loop runs; a propagated error aborts the
remaining maturities as in Python. -/
def benchOuter {ε : Type} (mcs : Date → ℚ → Except ε ℚ)
    (fou : MarketEnv → Except ε ℚ) :
    List Date → MarketEnv → List Row → MarketEnv × List Row × Option ε
  | [], e, acc => (e, acc, none)
  | m :: ms, e, acc =>
    match benchInner mcs fou m strikesList (e.add_maturity m) acc with
    | (e', acc', none) => benchOuter mcs fou ms e' acc'
    | (e', acc', some err) => (e', acc', some err)

/-- Embedding of the notebook's `valuation_benchmarking(valuation_object,
fourier_function)`.  The Monte Carlo side is the oracle `mcs` (the valuation
object's `present_value` after `update(maturity=..., strike=...)`), the
reference side is `fou` applied to the shared, mutated-in-place option
environment.  The result is the final state of the shared environment, the
rows printed before any error, and the propagated error if one occurred. -/
def valuation_benchmarking {ε : Type} (mcs : Date → ℚ → Except ε ℚ)
    (fou : MarketEnv → Except ε ℚ) (me_opt : MarketEnv) :
    MarketEnv × List Row × Option ε :=
  benchOuter mcs fou (dateRange2M start_date.month periods) me_opt []

/-- A Monte Carlo oracle that never raises. -/
def pureMcs (f : Date → ℚ → ℚ) : Date → ℚ → Except Unit ℚ :=
  fun m k => .ok (f m k)

/-- A Fourier pricing function that never raises. -/
def pureFou (g : MarketEnv → ℚ) : MarketEnv → Except Unit ℚ :=
  fun e => .ok (g e)

/-- The maturity-major Cartesian grid of (maturity, strike) pairs the
benchmark iterates. -/
def gridPoints : List (Date × ℚ) :=
  (dateRange2M start_date.month periods).flatMap
    (fun m => strikesList.map (fun k => (m, k)))

/-- Closed form of the row the harness emits at grid point (m, k) when no
error occurs, given the pricing date pd of the shared environment: T is the
day count from pd to m over 365, and the Fourier function sees exactly the
environment with maturity m and strike k. -/
def gridRow (f : Date → ℚ → ℚ) (g : MarketEnv → ℚ) (pd : Date)
    (p : Date × ℚ) : Row :=
  let T : ℚ := (p.1.daysFrom pd : ℚ) / 365
  let mc := f p.1 p.2
  let fo := g ⟨pd, p.1, p.2⟩
  ⟨T, p.2, mc, fo, mc - fo, (mc - fo) / fo * 100⟩

@[simp] lemma add_strike_pricing_date (e : MarketEnv) (k : ℚ) :
    (e.add_strike k).pricing_date = e.pricing_date := rfl

@[simp] lemma add_strike_maturity (e : MarketEnv) (k : ℚ) :
    (e.add_strike k).maturity = e.maturity := rfl

@[simp] lemma add_maturity_pricing_date (e : MarketEnv) (m : Date) :
    (e.add_maturity m).pricing_date = e.pricing_date := rfl

@[simp] lemma add_maturity_maturity (e : MarketEnv) (m : Date) :
    (e.add_maturity m).maturity = m := rfl

lemma foldl_add_strike_pricing_date (ks : List ℚ) (e : MarketEnv) :
    (ks.foldl MarketEnv.add_strike e).pricing_date = e.pricing_date := by
  induction ks generalizing e with
  | nil => rfl
  | cons k ks ih => simpa using ih (e.add_strike k)

lemma foldl_add_strike_maturity (ks : List ℚ) (e : MarketEnv) :
    (ks.foldl MarketEnv.add_strike e).maturity = e.maturity := by
  induction ks generalizing e with
  | nil => rfl
  | cons k ks ih => simpa using ih (e.add_strike k)

/-- Closed form of the inner strike loop when no oracle raises: it emits one
row per strike, in order, and leaves the environment with the last strike
written (the fold of the keyed overwrites). -/
lemma benchInner_pure (f : Date → ℚ → ℚ) (g : MarketEnv → ℚ) (m : Date)
    (ks : List ℚ) : ∀ (e : MarketEnv) (acc : List Row),
    benchInner (pureMcs f) (pureFou g) m ks e acc =
      (ks.foldl MarketEnv.add_strike e,
       acc ++ ks.map (fun k =>
         ⟨(m.daysFrom e.pricing_date : ℚ) / 365, k, f m k,
          g ⟨e.pricing_date, e.maturity, k⟩, f m k - g ⟨e.pricing_date, e.maturity, k⟩,
          (f m k - g ⟨e.pricing_date, e.maturity, k⟩) / g ⟨e.pricing_date, e.maturity, k⟩ * 100⟩),
       none) := by
  induction ks with
  | nil => intro e acc; simp [benchInner]
  | cons k ks ih =>
    intro e acc
    rw [benchInner]
    simp only [pureMcs, pureFou]
    rw [ih (e.add_strike k)]
    simp [MarketEnv.add_strike, List.append_assoc]

/-- Closed form of the outer maturity loop when no oracle raises. -/
lemma benchOuter_pure (f : Date → ℚ → ℚ) (g : MarketEnv → ℚ)
    (ms : List Date) : ∀ (e : MarketEnv) (acc : List Row),
    benchOuter (pureMcs f) (pureFou g) ms e acc =
      (ms.foldl (fun s m => strikesList.foldl MarketEnv.add_strike
         (s.add_maturity m)) e,
       acc ++ ms.flatMap (fun m => strikesList.map
         (fun k => gridRow f g e.pricing_date (m, k))),
       none) := by
  induction ms with
  | nil => intro e acc; simp [benchOuter]
  | cons m ms ih =>
    intro e acc
    rw [benchOuter]
    rw [benchInner_pure]
    dsimp only
    rw [ih (strikesList.foldl MarketEnv.add_strike (e.add_maturity m))]
    simp [foldl_add_strike_pricing_date, gridRow, Date.daysFrom,
      List.append_assoc]

/-- Characterization of a run of the benchmarking harness with oracles that
never raise: the error slot is empty, the emitted rows are exactly one row
per grid point of the maturity-major grid, each determined by its grid point
and the pricing date alone, and the final shared environment is the fold of
the maturity and strike overwrites. -/
lemma valuation_benchmarking_pure (f : Date → ℚ → ℚ) (g : MarketEnv → ℚ)
    (e : MarketEnv) :
    valuation_benchmarking (pureMcs f) (pureFou g) e =
      ((dateRange2M start_date.month periods).foldl
         (fun s m => strikesList.foldl MarketEnv.add_strike
           (s.add_maturity m)) e,
       gridPoints.map (gridRow f g e.pricing_date),
       none) := by
  rw [valuation_benchmarking, benchOuter_pure]
  simp [gridPoints, List.map_flatMap, Function.comp_def]

/-! Concrete evaluation of the grid of the notebook's benchmark runs. -/

lemma maturities_eq :
    dateRange2M start_date.month periods = [⟨3, 31⟩, ⟨5, 31⟩, ⟨7, 31⟩] := by
  decide

lemma strikesList_eq : strikesList = [80, 90, 100, 110, 120] := by
  simp only [strikesList, linspace, strikes, List.range_succ, List.range_zero,
    List.nil_append, List.cons_append, List.map_cons, List.map_nil,
    strike_low, strike_high, initial_value]
  norm_num

lemma gridPoints_eq : gridPoints =
    [(⟨3, 31⟩, 80), (⟨3, 31⟩, 90), (⟨3, 31⟩, 100), (⟨3, 31⟩, 110), (⟨3, 31⟩, 120),
     (⟨5, 31⟩, 80), (⟨5, 31⟩, 90), (⟨5, 31⟩, 100), (⟨5, 31⟩, 110), (⟨5, 31⟩, 120),
     (⟨7, 31⟩, 80), (⟨7, 31⟩, 90), (⟨7, 31⟩, 100), (⟨7, 31⟩, 110), (⟨7, 31⟩, 120)] := by
  simp [gridPoints, maturities_eq, strikesList_eq]

lemma daysFrom_mar : Date.daysFrom ⟨3, 31⟩ ⟨1, 1⟩ = 89 := by decide

lemma daysFrom_may : Date.daysFrom ⟨5, 31⟩ ⟨1, 1⟩ = 150 := by decide

lemma daysFrom_jul : Date.daysFrom ⟨7, 31⟩ ⟨1, 1⟩ = 211 := by decide

/-- Embedding of the notebook's inline GBM benchmark loops (the European put
and call cells preceding `valuation_benchmarking`): two nested for loops over
the same maturity/strike grid, the reference price coming from the mutated
`bsm_option` object of class `BSM_european_option`, captured as the oracle
`ana` of the maturity and strike written into it before each call; the shared
`me_option` is only read for its pricing date. -/
def gbm_benchmark (mcs ana : Date → ℚ → ℚ) : List Row :=
  (dateRange2M start_date.month periods).flatMap (fun m =>
    strikesList.map (fun k =>
      let T : ℚ := (m.daysFrom me_option.pricing_date : ℚ) / 365
      let mc := mcs m k
      let a := ana m k
      ⟨T, k, mc, a, mc - a, (mc - a) / a * 100⟩))

/-- C3: for every grid point the harness emits exactly one row, in grid
order, whose fields are, in order, the year fraction T, the strike, the
Monte Carlo price, the reference (Fourier/analytical) price, the absolute
difference equal to mcs - fou, and the relative difference equal to
(mcs - fou) / fou * 100; the display formatting rounds T and strike to 3
decimals, the two prices and the absolute difference to 4 decimals and the
relative difference (in percent) to 3 decimals, and the inline GBM loops
emit rows of exactly the same shape. -/
theorem benchmark_rows_one_per_point (f : Date → ℚ → ℚ) (g : MarketEnv → ℚ) :
    (valuation_benchmarking (pureMcs f) (pureFou g) me_option).2.1 =
      gridPoints.map (gridRow f g me_option.pricing_date) ∧
    (valuation_benchmarking (pureMcs f) (pureFou g) me_option).2.1.length =
      gridPoints.length ∧
    (valuation_benchmarking (pureMcs f) (pureFou g) me_option).2.1.map Row.dif =
      (valuation_benchmarking (pureMcs f) (pureFou g) me_option).2.1.map
        (fun r => r.mcs - r.fou) ∧
    (valuation_benchmarking (pureMcs f) (pureFou g) me_option).2.1.map Row.rel =
      (valuation_benchmarking (pureMcs f) (pureFou g) me_option).2.1.map
        (fun r => (r.mcs - r.fou) / r.fou * 100) ∧
    (valuation_benchmarking (pureMcs f) (pureFou g) me_option).2.1.map Row.printed =
      gridPoints.map (fun p =>
        [roundTo 3 ((p.1.daysFrom me_option.pricing_date : ℚ) / 365),
         roundTo 3 p.2, roundTo 4 (f p.1 p.2),
         roundTo 4 (g ⟨me_option.pricing_date, p.1, p.2⟩),
         roundTo 4 (f p.1 p.2 - g ⟨me_option.pricing_date, p.1, p.2⟩),
         roundTo 3 ((f p.1 p.2 - g ⟨me_option.pricing_date, p.1, p.2⟩) /
           g ⟨me_option.pricing_date, p.1, p.2⟩ * 100)]) ∧
    gbm_benchmark f (fun m k => g ⟨me_option.pricing_date, m, k⟩) =
      (valuation_benchmarking (pureMcs f) (pureFou g) me_option).2.1 := by
  rw [valuation_benchmarking_pure]
  refine ⟨rfl, by simp, by simp [gridRow], by simp [gridRow],
    by simp [gridRow, Row.printed], ?_⟩
  simp [gbm_benchmark, gridPoints, List.map_flatMap, Function.comp_def, gridRow]

/-- C4: the run iterates the full Cartesian grid of the 3 maturities of the
two-month-frequency date range starting 2015-03-01 (the month ends
2015-03-31, 2015-05-31, 2015-07-31) by the 5 strikes equally spaced from
0.8 to 1.2 times the initial value 100 (80, 90, 100, 110, 120), in
maturity-major order, producing 15 rows, and each row carries both the
Monte Carlo estimate and the Fourier/analytical price of its grid point. -/
theorem benchmark_grid_cartesian (f : Date → ℚ → ℚ) (g : MarketEnv → ℚ) :
    dateRange2M start_date.month periods = [⟨3, 31⟩, ⟨5, 31⟩, ⟨7, 31⟩] ∧
    strikesList = [80, 90, 100, 110, 120] ∧
    gridPoints =
      [(⟨3, 31⟩, 80), (⟨3, 31⟩, 90), (⟨3, 31⟩, 100), (⟨3, 31⟩, 110), (⟨3, 31⟩, 120),
       (⟨5, 31⟩, 80), (⟨5, 31⟩, 90), (⟨5, 31⟩, 100), (⟨5, 31⟩, 110), (⟨5, 31⟩, 120),
       (⟨7, 31⟩, 80), (⟨7, 31⟩, 90), (⟨7, 31⟩, 100), (⟨7, 31⟩, 110), (⟨7, 31⟩, 120)] ∧
    gridPoints.length = 15 ∧
    (valuation_benchmarking (pureMcs f) (pureFou g) me_option).2.1.length = 15 ∧
    (valuation_benchmarking (pureMcs f) (pureFou g) me_option).2.1.map Row.mcs =
      gridPoints.map (fun p => f p.1 p.2) ∧
    (valuation_benchmarking (pureMcs f) (pureFou g) me_option).2.1.map Row.fou =
      gridPoints.map (fun p => g ⟨me_option.pricing_date, p.1, p.2⟩) := by
  refine ⟨maturities_eq, strikesList_eq, gridPoints_eq, by rw [gridPoints_eq]; rfl,
    ?_, ?_, ?_⟩ <;>
    rw [valuation_benchmarking_pure] <;>
    simp [gridRow, gridPoints_eq]

/-- C6: the benchmark's Fourier column is deterministic: a second run with
identical inputs returns the identical result, each row's Fourier price is
a function of the grid point and the environment's immutable pricing date
alone, and the Fourier column does not depend on the mutable strike and
maturity state the environment happened to hold when the run started. -/
theorem fourier_pricing_deterministic (f : Date → ℚ → ℚ) (g : MarketEnv → ℚ)
    (e : MarketEnv) :
    valuation_benchmarking (pureMcs f) (pureFou g) e =
      valuation_benchmarking (pureMcs f) (pureFou g) e ∧
    (valuation_benchmarking (pureMcs f) (pureFou g) e).2.1.map Row.fou =
      gridPoints.map (fun p => g ⟨e.pricing_date, p.1, p.2⟩) ∧
    (valuation_benchmarking (pureMcs f) (pureFou g) e).2.1.map Row.fou =
      (valuation_benchmarking (pureMcs f) (pureFou g)
        ⟨e.pricing_date, ⟨12, 31⟩, 100⟩).2.1.map Row.fou := by
  refine ⟨rfl, ?_, ?_⟩ <;> rw [valuation_benchmarking_pure] <;>
    simp [gridRow, valuation_benchmarking_pure]

/-- C8: a completed run leaves the shared option environment mutated in
place: its strike constant is the last grid strike 120 and its maturity
constant the last grid maturity 2015-07-31, differing from the values it was
constructed with (strike 100, maturity 2015-12-31); this mutated state is
exactly the environment any subsequent benchmark run starts from. -/
theorem me_option_mutated_in_place (f : Date → ℚ → ℚ) (g : MarketEnv → ℚ) :
    (valuation_benchmarking (pureMcs f) (pureFou g) me_option).1 =
      ⟨⟨1, 1⟩, ⟨7, 31⟩, 120⟩ ∧
    me_option.strike = 100 ∧
    me_option.maturity = ⟨12, 31⟩ ∧
    (valuation_benchmarking (pureMcs f) (pureFou g) me_option).1 ≠ me_option ∧
    (valuation_benchmarking (pureMcs f) (pureFou g) me_option).1.strike ≠ 100 ∧
    (valuation_benchmarking (pureMcs f) (pureFou g) me_option).1.maturity ≠
      ⟨12, 31⟩ := by
  have h : (valuation_benchmarking (pureMcs f) (pureFou g) me_option).1 =
      ⟨⟨1, 1⟩, ⟨7, 31⟩, 120⟩ := by
    rw [valuation_benchmarking_pure]
    rw [maturities_eq, strikesList_eq]
    simp [MarketEnv.add_maturity, MarketEnv.add_strike, me_option]
  refine ⟨h, rfl, rfl, ?_, ?_, ?_⟩
  · rw [h]; simp [me_option]
  · rw [h]; norm_num
  · rw [h]; decide

/-- C10: every reported year fraction T is the day count from the maturity
back to the option environment's pricing date 2015-01-01 divided by 365
(89/365, 150/365 and 211/365 for the three maturities), so the first
maturity 2015-03-31 yields T = 89/365, anchored at the pricing date and not
at the simulation start date 2015-03-01 (which would give 30/365). -/
theorem yearfraction_anchored_at_pricing_date (f : Date → ℚ → ℚ)
    (g : MarketEnv → ℚ) :
    me_option.pricing_date = ⟨1, 1⟩ ∧
    (valuation_benchmarking (pureMcs f) (pureFou g) me_option).2.1.map Row.T =
      gridPoints.map (fun p => (p.1.daysFrom me_option.pricing_date : ℚ) / 365) ∧
    (valuation_benchmarking (pureMcs f) (pureFou g) me_option).2.1.map Row.T =
      [89/365, 89/365, 89/365, 89/365, 89/365,
       150/365, 150/365, 150/365, 150/365, 150/365,
       211/365, 211/365, 211/365, 211/365, 211/365] ∧
    Date.daysFrom ⟨3, 31⟩ ⟨1, 1⟩ = 89 ∧
    Date.daysFrom ⟨3, 31⟩ start_date = 30 ∧
    ((89 : ℚ) / 365) ≠ (30 : ℚ) / 365 := by
  refine ⟨rfl, ?_, ?_, daysFrom_mar, by decide, by norm_num⟩ <;>
    rw [valuation_benchmarking_pure]
  · simp [gridRow]
  · simp [gridRow, gridPoints_eq, me_option, daysFrom_mar, daysFrom_may,
      daysFrom_jul]

/-! Error propagation through the benchmarking harness. -/

/-- A Monte Carlo oracle that always succeeds with price 1. -/
def okMcs : Date → ℚ → Except Unit ℚ := fun _ _ => .ok 1

/-- A Fourier pricing function that raises exactly at the first grid point
(maturity 2015-03-31, strike 80) and succeeds elsewhere. -/
def failFirstFou : MarketEnv → Except Unit ℚ :=
  fun e => if e.maturity = ⟨3, 31⟩ ∧ e.strike = 80 then .error () else .ok 1

/-- C2 counterexample: with a Fourier function that fails only at the first
grid point, the harness neither reports that row as unavailable nor
continues with the remaining 14 grid points: it propagates the error out of
the run, reporting no rows at all. -/
theorem harness_abort_counterexample :
    (valuation_benchmarking okMcs failFirstFou me_option).2.1 = [] ∧
    (valuation_benchmarking okMcs failFirstFou me_option).2.2 = some () ∧
    (valuation_benchmarking okMcs failFirstFou me_option).2.1.length ≠ 14 := by
  have h : valuation_benchmarking okMcs failFirstFou me_option =
      (⟨⟨1, 1⟩, ⟨3, 31⟩, 80⟩, [], some ()) := by
    rw [valuation_benchmarking, maturities_eq, benchOuter, strikesList_eq]
    rw [benchInner]
    simp [okMcs, failFirstFou, MarketEnv.add_maturity, MarketEnv.add_strike,
      me_option]
  rw [h]
  exact ⟨rfl, rfl, by simp⟩

/-- An oracle equal to the error-free Monte Carlo oracle of f except that
`present_value` raises err at the one (maturity, strike) pair q. -/
def mcsFailAt (f : Date → ℚ → ℚ) (q : Date × ℚ) (err : Unit) :
    Date → ℚ → Except Unit ℚ :=
  fun m k => if (m, k) = q then .error err else .ok (f m k)

/-- A Fourier pricing function equal to the error-free one of g except that
it raises err when the environment holds the (maturity, strike) pair q. -/
def fouFailAt (g : MarketEnv → ℚ) (q : Date × ℚ) (err : Unit) :
    MarketEnv → Except Unit ℚ :=
  fun e => if (e.maturity, e.strike) = q then .error err else .ok (g e)

/-- A strike loop at a maturity other than the failing one never triggers a
Fourier-side failure: it behaves as the error-free loop. -/
lemma benchInner_fouFail_skip (f : Date → ℚ → ℚ) (g : MarketEnv → ℚ)
    (err : Unit) (mf : Date) (kf : ℚ) (m : Date) (ks : List ℚ) :
    ∀ (e : MarketEnv) (acc : List Row), e.maturity ≠ mf →
      benchInner (pureMcs f) (fouFailAt g (mf, kf) err) m ks e acc =
        benchInner (pureMcs f) (pureFou g) m ks e acc := by
  induction ks with
  | nil => intro e acc _; rfl
  | cons k ks ih =>
    intro e acc hne
    rw [benchInner, benchInner]
    simp only [pureMcs, pureFou, fouFailAt]
    have hcond : ¬(((e.add_strike k).maturity, (e.add_strike k).strike) =
        (mf, kf)) := by
      simp only [add_strike_maturity, Prod.mk.injEq, not_and]
      intro h
      exact absurd h hne
    rw [if_neg hcond]
    exact ih (e.add_strike k) _ (by simpa using hne)

/-- A strike loop at a maturity other than the failing one never triggers a
Monte-Carlo-side failure: it behaves as the error-free loop. -/
lemma benchInner_mcsFail_skip (f : Date → ℚ → ℚ) (g : MarketEnv → ℚ)
    (err : Unit) (mf : Date) (kf : ℚ) (m : Date) (hne : m ≠ mf)
    (ks : List ℚ) :
    ∀ (e : MarketEnv) (acc : List Row),
      benchInner (mcsFailAt f (mf, kf) err) (pureFou g) m ks e acc =
        benchInner (pureMcs f) (pureFou g) m ks e acc := by
  induction ks with
  | nil => intro e acc; rfl
  | cons k ks ih =>
    intro e acc
    rw [benchInner, benchInner]
    simp only [pureMcs, pureFou, mcsFailAt]
    have hcond : ¬((m, k) = (mf, kf)) := by
      simp only [Prod.mk.injEq, not_and]
      intro h
      exact absurd h hne
    rw [if_neg hcond]
    exact ih (e.add_strike k) _

/-- The strike loop when the Fourier function raises at strike kf of the
loop's maturity: the rows of the strikes before kf are emitted with their
error-free values, then the error is propagated, no later strike running. -/
lemma benchInner_fouFail (f : Date → ℚ → ℚ) (g : MarketEnv → ℚ)
    (err : Unit) (m : Date) (kf : ℚ) (ks₂ : List ℚ) (ks₁ : List ℚ) :
    ∀ (e : MarketEnv) (acc : List Row), e.maturity = m → kf ∉ ks₁ →
      benchInner (pureMcs f) (fouFailAt g (m, kf) err) m (ks₁ ++ kf :: ks₂) e acc =
        (e.add_strike kf,
         acc ++ ks₁.map (fun k =>
           ⟨(m.daysFrom e.pricing_date : ℚ) / 365, k, f m k,
            g ⟨e.pricing_date, e.maturity, k⟩,
            f m k - g ⟨e.pricing_date, e.maturity, k⟩,
            (f m k - g ⟨e.pricing_date, e.maturity, k⟩) /
              g ⟨e.pricing_date, e.maturity, k⟩ * 100⟩),
         some err) := by
  induction ks₁ with
  | nil =>
    intro e acc hm _
    rw [List.nil_append, benchInner]
    simp [pureMcs, fouFailAt, MarketEnv.add_strike, hm]
  | cons k ks₁ ih =>
    intro e acc hm hk1
    have hkk : k ≠ kf := fun h => hk1 (h ▸ List.mem_cons_self k ks₁)
    have hk1n : kf ∉ ks₁ := fun h => hk1 (List.mem_cons_of_mem k h)
    rw [List.cons_append, benchInner]
    simp only [pureMcs, fouFailAt]
    have hcond : ¬(((e.add_strike k).maturity, (e.add_strike k).strike) =
        (m, kf)) := by
      simp only [MarketEnv.add_strike, Prod.mk.injEq, not_and]
      intro _ h
      exact hkk h
    rw [if_neg hcond]
    dsimp only
    rw [ih (e.add_strike k) _ (by simpa using hm) hk1n]
    simp [MarketEnv.add_strike, List.append_assoc]

/-- The strike loop when the Monte Carlo oracle raises at strike kf of the
loop's maturity: the rows of the strikes before kf are emitted with their
error-free values, then the error is propagated, no later strike running. -/
lemma benchInner_mcsFail (f : Date → ℚ → ℚ) (g : MarketEnv → ℚ)
    (err : Unit) (m : Date) (kf : ℚ) (ks₂ : List ℚ) (ks₁ : List ℚ) :
    ∀ (e : MarketEnv) (acc : List Row), kf ∉ ks₁ →
      benchInner (mcsFailAt f (m, kf) err) (pureFou g) m (ks₁ ++ kf :: ks₂) e acc =
        (ks₁.foldl MarketEnv.add_strike e,
         acc ++ ks₁.map (fun k =>
           ⟨(m.daysFrom e.pricing_date : ℚ) / 365, k, f m k,
            g ⟨e.pricing_date, e.maturity, k⟩,
            f m k - g ⟨e.pricing_date, e.maturity, k⟩,
            (f m k - g ⟨e.pricing_date, e.maturity, k⟩) /
              g ⟨e.pricing_date, e.maturity, k⟩ * 100⟩),
         some err) := by
  induction ks₁ with
  | nil =>
    intro e acc _
    rw [List.nil_append, benchInner]
    simp [mcsFailAt]
  | cons k ks₁ ih =>
    intro e acc hk1
    have hkk : k ≠ kf := fun h => hk1 (h ▸ List.mem_cons_self k ks₁)
    have hk1n : kf ∉ ks₁ := fun h => hk1 (List.mem_cons_of_mem k h)
    rw [List.cons_append, benchInner]
    simp only [mcsFailAt, pureFou]
    have hcond : ¬((m, k) = (m, kf)) := by
      simp only [Prod.mk.injEq, not_and]
      intro _ h
      exact hkk h
    rw [if_neg hcond]
    dsimp only
    rw [ih (e.add_strike k) _ hk1n]
    simp [MarketEnv.add_strike, List.append_assoc]

/-- The maturity loop when the Fourier function raises at grid point
(mf, kf): the maturities before mf run error-free, the strikes before kf at
maturity mf emit their error-free rows, then the error aborts everything
that remains. -/
lemma benchOuter_fouFail (f : Date → ℚ → ℚ) (g : MarketEnv → ℚ) (err : Unit)
    (mf : Date) (kf : ℚ) (ks₁ ks₂ : List ℚ) (ms₂ : List Date)
    (hks : strikesList = ks₁ ++ kf :: ks₂) (hk1 : kf ∉ ks₁)
    (ms₁ : List Date) :
    ∀ (e : MarketEnv) (acc : List Row), mf ∉ ms₁ →
      (benchOuter (pureMcs f) (fouFailAt g (mf, kf) err)
          (ms₁ ++ mf :: ms₂) e acc).2.1 =
        acc ++ ms₁.flatMap (fun m => strikesList.map
            (fun k => gridRow f g e.pricing_date (m, k)))
          ++ ks₁.map (fun k => gridRow f g e.pricing_date (mf, k)) ∧
      (benchOuter (pureMcs f) (fouFailAt g (mf, kf) err)
          (ms₁ ++ mf :: ms₂) e acc).2.2 = some err := by
  induction ms₁ with
  | nil =>
    intro e acc _
    rw [List.nil_append, benchOuter, hks]
    rw [benchInner_fouFail f g err mf kf ks₂ ks₁ (e.add_maturity mf) acc
      (by simp) hk1]
    constructor
    · simp [gridRow, MarketEnv.add_maturity]
    · rfl
  | cons m ms₁ ih =>
    intro e acc hm1
    have hmm : m ≠ mf := fun h => hm1 (h ▸ List.mem_cons_self m ms₁)
    have hm1n : mf ∉ ms₁ := fun h => hm1 (List.mem_cons_of_mem m h)
    rw [List.cons_append, benchOuter]
    rw [benchInner_fouFail_skip f g err mf kf m strikesList
      (e.add_maturity m) acc (by simpa using hmm)]
    rw [benchInner_pure]
    dsimp only
    obtain ⟨ih1, ih2⟩ :=
      ih (strikesList.foldl MarketEnv.add_strike (e.add_maturity m)) _ hm1n
    constructor
    · rw [ih1]
      simp [foldl_add_strike_pricing_date, gridRow, List.append_assoc]
    · exact ih2
  
/-- The maturity loop when the Monte Carlo oracle raises at grid point
(mf, kf): the maturities before mf run error-free, the strikes before kf at
maturity mf emit their error-free rows, then the error aborts everything
that remains. -/
lemma benchOuter_mcsFail (f : Date → ℚ → ℚ) (g : MarketEnv → ℚ) (err : Unit)
    (mf : Date) (kf : ℚ) (ks₁ ks₂ : List ℚ) (ms₂ : List Date)
    (hks : strikesList = ks₁ ++ kf :: ks₂) (hk1 : kf ∉ ks₁)
    (ms₁ : List Date) :
    ∀ (e : MarketEnv) (acc : List Row), mf ∉ ms₁ →
      (benchOuter (mcsFailAt f (mf, kf) err) (pureFou g)
          (ms₁ ++ mf :: ms₂) e acc).2.1 =
        acc ++ ms₁.flatMap (fun m => strikesList.map
            (fun k => gridRow f g e.pricing_date (m, k)))
          ++ ks₁.map (fun k => gridRow f g e.pricing_date (mf, k)) ∧
      (benchOuter (mcsFailAt f (mf, kf) err) (pureFou g)
          (ms₁ ++ mf :: ms₂) e acc).2.2 = some err := by
  induction ms₁ with
  | nil =>
    intro e acc _
    rw [List.nil_append, benchOuter, hks]
    rw [benchInner_mcsFail f g err mf kf ks₂ ks₁ (e.add_maturity mf) acc hk1]
    constructor
    · simp [gridRow, MarketEnv.add_maturity]
    · rfl
  | cons m ms₁ ih =>
    intro e acc hm1
    have hmm : m ≠ mf := fun h => hm1 (h ▸ List.mem_cons_self m ms₁)
    have hm1n : mf ∉ ms₁ := fun h => hm1 (List.mem_cons_of_mem m h)
    rw [List.cons_append, benchOuter]
    rw [benchInner_mcsFail_skip f g err mf kf m hmm strikesList
      (e.add_maturity m) acc]
    rw [benchInner_pure]
    dsimp only
    obtain ⟨ih1, ih2⟩ :=
      ih (strikesList.foldl MarketEnv.add_strike (e.add_maturity m)) _ hm1n
    constructor
    · rw [ih1]
      simp [foldl_add_strike_pricing_date, gridRow, List.append_assoc]
    · exact ih2

/-- C2 amended: when obtaining the price for any grid point (mf, kf) fails,
from either the Monte Carlo estimator or the Fourier pricing function, the
harness does not report that row as unavailable and does not continue: the
error propagates out of `valuation_benchmarking`, the rows already printed
for the grid points before (mf, kf) persist unchanged with their error-free
values, and no row is emitted for the failing grid point or for any later
one.  The failing point ranges over the whole grid through the
decompositions of the maturity range and of the strike list. -/
theorem harness_aborts_on_error (f : Date → ℚ → ℚ) (g : MarketEnv → ℚ)
    (err : Unit) (e : MarketEnv) (ms₁ ms₂ : List Date) (mf : Date)
    (ks₁ ks₂ : List ℚ) (kf : ℚ)
    (hms : dateRange2M start_date.month periods = ms₁ ++ mf :: ms₂)
    (hks : strikesList = ks₁ ++ kf :: ks₂)
    (hm1 : mf ∉ ms₁) (hk1 : kf ∉ ks₁) :
    ((valuation_benchmarking (pureMcs f) (fouFailAt g (mf, kf) err) e).2.2 =
       some err ∧
     (valuation_benchmarking (pureMcs f) (fouFailAt g (mf, kf) err) e).2.1 =
       ms₁.flatMap (fun m => strikesList.map
           (fun k => gridRow f g e.pricing_date (m, k)))
         ++ ks₁.map (fun k => gridRow f g e.pricing_date (mf, k))) ∧
    ((valuation_benchmarking (mcsFailAt f (mf, kf) err) (pureFou g) e).2.2 =
       some err ∧
     (valuation_benchmarking (mcsFailAt f (mf, kf) err) (pureFou g) e).2.1 =
       ms₁.flatMap (fun m => strikesList.map
           (fun k => gridRow f g e.pricing_date (m, k)))
         ++ ks₁.map (fun k => gridRow f g e.pricing_date (mf, k))) := by
  have h1 := benchOuter_fouFail f g err mf kf ks₁ ks₂ ms₂ hks hk1 ms₁ e [] hm1
  have h2 := benchOuter_mcsFail f g err mf kf ks₁ ks₂ ms₂ hks hk1 ms₁ e [] hm1
  simp only [valuation_benchmarking, hms]
  exact ⟨⟨h1.2, by rw [h1.1]; simp⟩, ⟨h2.2, by rw [h2.1]; simp⟩⟩

/-- C2 witness: the amended abort behaviour at a mid-grid failing point
(maturity 2015-05-31, strike 100, the 8th of the 15 grid points), for both a
Fourier-side and a Monte-Carlo-side failure: the error propagates and
exactly the 7 rows of the earlier grid points persist. -/
theorem harness_aborts_on_error_witness :
    (valuation_benchmarking (pureMcs (fun _ _ => 1))
      (fouFailAt (fun _ => 2) (⟨5, 31⟩, 100) ()) me_option).2.2 = some () ∧
    (valuation_benchmarking (pureMcs (fun _ _ => 1))
      (fouFailAt (fun _ => 2) (⟨5, 31⟩, 100) ()) me_option).2.1.length = 7 ∧
    (valuation_benchmarking (mcsFailAt (fun _ _ => 1) (⟨5, 31⟩, 100) ())
      (pureFou (fun _ => 2)) me_option).2.2 = some () ∧
    (valuation_benchmarking (mcsFailAt (fun _ _ => 1) (⟨5, 31⟩, 100) ())
      (pureFou (fun _ => 2)) me_option).2.1.length = 7 := by
  have h := harness_aborts_on_error (fun _ _ => 1) (fun _ => 2) () me_option
    [⟨3, 31⟩] [⟨7, 31⟩] ⟨5, 31⟩ [80, 90] [110, 120] 100
    (by simp [maturities_eq]) (by simp [strikesList_eq]) (by decide)
    (by norm_num)
  refine ⟨h.1.1, ?_, h.2.1, ?_⟩
  · rw [h.1.2, strikesList_eq]
    rfl
  · rw [h.2.2, strikesList_eq]
    rfl

/-! Put-call parity of the Fourier pricing functions. -/

/-- Modelled from the spec: the Fourier pricing functions of the dx library
(`M76_put_value`, `H93_put_value`, `B96_put_value`; their code is not among
the given sources) compute the put price as the discounted Lewis
representation disc * (S0 - intTerm), where disc is the discount factor
exp(-r*T) and intTerm is (sqrt(S0*K)/pi) times the semi-infinite integral of
the damped characteristic function; the two transcendental quantities enter
here as the parameters disc and intTerm. -/
def fourier_put_value (S0 K disc intTerm : ℚ) : ℚ := disc * (S0 - intTerm)

/-- Modelled from the spec: the corresponding call values (`M76_call_value`,
`H93_call_value`, `B96_call_value`) are obtained from the put via put-call
parity, Call = Put + S0 - K * disc. -/
def fourier_call_value (S0 K disc intTerm : ℚ) : ℚ :=
  fourier_put_value S0 K disc intTerm + S0 - K * disc

/-- C1: put-call parity holds for every spot, strike, discount factor and
integral value: the call and put returned by the Fourier pricing functions
satisfy Call - Put = S0 - K * exp(-r*T) exactly, in particular within the
1e-6 absolute integration tolerance. -/
theorem put_call_parity (S0 K disc intTerm : ℚ) :
    fourier_call_value S0 K disc intTerm - fourier_put_value S0 K disc intTerm =
      S0 - K * disc ∧
    |fourier_call_value S0 K disc intTerm - fourier_put_value S0 K disc intTerm -
      (S0 - K * disc)| ≤ 1 / 1000000 := by
  have h : fourier_call_value S0 K disc intTerm -
      fourier_put_value S0 K disc intTerm = S0 - K * disc := by
    simp only [fourier_call_value]; ring
  refine ⟨h, ?_⟩
  rw [h, sub_self, abs_zero]
  norm_num

/-! Which reference routine each benchmark run uses. -/

/-- The four risk-factor models of the notebook. -/
inductive ModelTag | gbm | jd | sv | svjd
deriving DecidableEq, Repr

/-- Option right of a benchmark run. -/
inductive OptionRight | putOpt | callOpt
deriving DecidableEq, Repr

/-- The reference pricing routines the notebook's benchmark cells invoke. -/
inductive RefRoutine
  | BSM_put_value | BSM_call_value
  | M76_put_value | M76_call_value
  | H93_put_value | H93_call_value
  | B96_put_value | B96_call_value
deriving DecidableEq, Repr

/-- Transcription of the notebook's eight benchmark runs in execution order:
the two inline GBM loops read the reference price from the closed-form
`BSM_european_option` object's `put_value` and `call_value` methods, and the
six `valuation_benchmarking` calls pass `dx.M76_put_value`,
`dx.M76_call_value`, `dx.H93_put_value`, `dx.H93_call_value`,
`dx.B96_put_value`, `dx.B96_call_value` for the jump-diffusion, stochastic
volatility and stochastic volatility jump diffusion valuation objects. -/
def benchmarkRuns : List (ModelTag × OptionRight × RefRoutine) :=
  [(.gbm, .putOpt, .BSM_put_value), (.gbm, .callOpt, .BSM_call_value),
   (.jd, .putOpt, .M76_put_value), (.jd, .callOpt, .M76_call_value),
   (.sv, .putOpt, .H93_put_value), (.sv, .callOpt, .H93_call_value),
   (.svjd, .putOpt, .B96_put_value), (.svjd, .callOpt, .B96_call_value)]

/-- Whether a reference routine is one of the Fourier-integration functions
(M76_*, H93_*, B96_*), as opposed to the closed-form Black-Scholes class. -/
def RefRoutine.isFourier : RefRoutine → Bool
  | .BSM_put_value | .BSM_call_value => false
  | _ => true

/-- The model family a Fourier integration routine belongs to. -/
def RefRoutine.fourierModel : RefRoutine → Option ModelTag
  | .M76_put_value | .M76_call_value => some .jd
  | .H93_put_value | .H93_call_value => some .sv
  | .B96_put_value | .B96_call_value => some .svjd
  | _ => none

/-- C9: in the GBM benchmark the reference column labelled fou is computed
by the closed-form Black-Scholes valuation object (put_value / call_value)
and not by a Fourier integration function, and every use of a Fourier
function (M76_*, H93_*, B96_*) is in the run of the matching model (Merton,
Heston, Bates respectively), never in the GBM run. -/
theorem gbm_reference_is_closed_form :
    ((benchmarkRuns.filter (fun r => r.1 == .gbm)).map (fun r => r.2.2)) =
      [.BSM_put_value, .BSM_call_value] ∧
    (benchmarkRuns.filter (fun r => r.1 == .gbm)).all
      (fun r => !r.2.2.isFourier) = true ∧
    benchmarkRuns.all (fun r => !r.2.2.isFourier ||
      (r.2.2.fourierModel == some r.1 && !(r.1 == .gbm))) = true := by
  decide

/-! Recorded reference output of the GBM benchmark run. -/

/-- A default row for total list indexing. -/
def zeroRow : Row := ⟨0, 0, 0, 0, 0, 0⟩

/-- The constant short rate r = 0.01 of the notebook. -/
def short_rate : ℚ := 0.01

/-- The initial value 100 of the GBM market environment. -/
def me_initial_value : ℚ := 100

/-- The volatility 0.2 of the GBM market environment. -/
def me_volatility : ℚ := 0.2

/-- The GBM European put benchmark table stored in the notebook's reference
output, one row per grid point with the printed columns T, strike, mcs, fou,
dif, rel; the fou column is the closed-form Black-Scholes value. -/
def gbmPutRecorded : List Row :=
  [⟨0.244, 80, 0.0327, 0.0338, -0.0011, -3.22⟩,
   ⟨0.244, 90, 0.6532, 0.6524, 0.0008, 0.12⟩,
   ⟨0.244, 100, 3.7811, 3.8130, -0.0318, -0.84⟩,
   ⟨0.244, 110, 10.6205, 10.6957, -0.0752, -0.70⟩,
   ⟨0.244, 120, 19.7026, 19.8537, -0.1512, -0.76⟩,
   ⟨0.411, 80, 0.1755, 0.1748, 0.0007, 0.42⟩,
   ⟨0.411, 90, 1.3393, 1.3241, 0.0152, 1.15⟩,
   ⟨0.411, 100, 4.8421, 4.8985, -0.0564, -1.15⟩,
   ⟨0.411, 110, 11.3570, 11.4275, -0.0705, -0.62⟩,
   ⟨0.411, 120, 19.9190, 20.0325, -0.1135, -0.57⟩,
   ⟨0.578, 80, 0.3820, 0.3917, -0.0097, -2.47⟩,
   ⟨0.578, 90, 1.9342, 1.9466, -0.0124, -0.64⟩,
   ⟨0.578, 100, 5.7446, 5.7593, -0.0147, -0.25⟩,
   ⟨0.578, 110, 12.0049, 12.0934, -0.0885, -0.73⟩,
   ⟨0.578, 120, 20.2267, 20.3153, -0.0886, -0.44⟩]

/-- The GBM European call benchmark table stored in the notebook's reference
output. -/
def gbmCallRecorded : List Row :=
  [⟨0.244, 80, 20.0731, 20.2286, -0.1556, -0.77⟩,
   ⟨0.244, 90, 10.7908, 10.8716, -0.0808, -0.74⟩,
   ⟨0.244, 100, 4.0200, 4.0565, -0.0365, -0.90⟩,
   ⟨0.244, 110, 0.9631, 0.9636, -0.0005, -0.05⟩,
   ⟨0.244, 120, 0.1356, 0.1460, -0.0104, -7.14⟩,
   ⟨0.411, 80, 20.3867, 20.5029, -0.1162, -0.57⟩,
   ⟨0.411, 90, 11.6556, 11.6932, -0.0376, -0.32⟩,
   ⟨0.411, 100, 5.3106, 5.3086, 0.0020, 0.04⟩,
   ⟨0.411, 110, 1.8540, 1.8787, -0.0247, -1.31⟩,
   ⟨0.411, 120, 0.5041, 0.5246, -0.0205, -3.91⟩,
   ⟨0.578, 80, 20.7445, 20.8528, -0.1083, -0.52⟩,
   ⟨0.578, 90, 12.3760, 12.4654, -0.0894, -0.72⟩,
   ⟨0.578, 100, 6.3499, 6.3357, 0.0142, 0.22⟩,
   ⟨0.578, 110, 2.7110, 2.7274, -0.0165, -0.60⟩,
   ⟨0.578, 120, 1.0002, 1.0070, -0.0068, -0.67⟩]

/-- C5: in the recorded GBM reference run with S0 = 100, sigma = 0.2,
r = 0.01, at the row with T = 0.244 (the 89-day maturity 2015-03-31, since
89/365 prints as 0.244) and strike 100, the reference (non-Monte-Carlo)
column is 3.8130 for the put and 4.0565 for the call, within 0.05 of 3.81
and 4.06 respectively. -/
theorem gbm_reference_scenario_values :
    me_initial_value = 100 ∧ me_volatility = 0.2 ∧ short_rate = 0.01 ∧
    roundTo 3 ((89 : ℚ) / 365) = 0.244 ∧
    (gbmPutRecorded.getD 2 zeroRow).T = 0.244 ∧
    (gbmPutRecorded.getD 2 zeroRow).strike = 100 ∧
    (gbmPutRecorded.getD 2 zeroRow).fou = 3.8130 ∧
    |(gbmPutRecorded.getD 2 zeroRow).fou - 3.81| ≤ 0.05 ∧
    (gbmCallRecorded.getD 2 zeroRow).T = 0.244 ∧
    (gbmCallRecorded.getD 2 zeroRow).strike = 100 ∧
    (gbmCallRecorded.getD 2 zeroRow).fou = 4.0565 ∧
    |(gbmCallRecorded.getD 2 zeroRow).fou - 4.06| ≤ 0.05 := by
  have hput : gbmPutRecorded.getD 2 zeroRow =
      ⟨0.244, 100, 3.7811, 3.8130, -0.0318, -0.84⟩ := rfl
  have hcall : gbmCallRecorded.getD 2 zeroRow =
      ⟨0.244, 100, 4.0200, 4.0565, -0.0365, -0.90⟩ := rfl
  rw [hput, hcall]
  have hround : roundTo 3 ((89 : ℚ) / 365) = 0.244 := by
    rw [roundTo, round_eq]
    norm_num
  refine ⟨rfl, rfl, rfl, hround, rfl, rfl, rfl, ?_, rfl, rfl, rfl, ?_⟩ <;>
    rw [abs_le] <;> constructor <;> norm_num

/-! Monotonicity of the Fourier prices in spot and strike. -/

/-- Modelled from the spec: the risk-neutral distribution of the gross
return X = S_T / S0 of any of the four models (its characteristic function
code is not among the given sources), represented as a finite discrete
measure, a list of (weight, outcome) pairs; `expPayoff` is the expectation
of a payoff of the outcome under it.  In every model of the spec the law of
X does not depend on the spot or the strike. -/
def expPayoff (dist : List (ℚ × ℚ)) (payoff : ℚ → ℚ) : ℚ :=
  (dist.map (fun wx => wx.1 * payoff wx.2)).sum

/-- Modelled from the spec: the Fourier put price is the discounted
risk-neutral expectation of the put payoff max(K - S_T, 0) with
S_T = S0 * X, disc being the discount factor exp(-r*T). -/
def putPrice (disc : ℚ) (dist : List (ℚ × ℚ)) (S0 K : ℚ) : ℚ :=
  disc * expPayoff dist (fun x => max (K - S0 * x) 0)

/-- Modelled from the spec: the call price is obtained from the put via
put-call parity. -/
def callPrice (disc : ℚ) (dist : List (ℚ × ℚ)) (S0 K : ℚ) : ℚ :=
  putPrice disc dist S0 K + S0 - K * disc

lemma expPayoff_mono (dist : List (ℚ × ℚ)) (P Q : ℚ → ℚ)
    (hw : ∀ p ∈ dist, 0 ≤ p.1) (h : ∀ p ∈ dist, P p.2 ≤ Q p.2) :
    expPayoff dist P ≤ expPayoff dist Q := by
  induction dist with
  | nil => simp [expPayoff]
  | cons p ps ih =>
    simp only [expPayoff, List.map_cons, List.sum_cons]
    have h1 : p.1 * P p.2 ≤ p.1 * Q p.2 :=
      mul_le_mul_of_nonneg_left (h p (List.mem_cons_self p ps))
        (hw p (List.mem_cons_self p ps))
    have h2 : expPayoff ps P ≤ expPayoff ps Q :=
      ih (fun q hq => hw q (List.mem_cons_of_mem p hq))
        (fun q hq => h q (List.mem_cons_of_mem p hq))
    exact add_le_add h1 h2

lemma expPayoff_add (dist : List (ℚ × ℚ)) (P Q : ℚ → ℚ) :
    expPayoff dist (fun x => P x + Q x) =
      expPayoff dist P + expPayoff dist Q := by
  induction dist with
  | nil => simp [expPayoff]
  | cons p ps ih =>
    simp only [expPayoff, List.map_cons, List.sum_cons] at ih ⊢
    rw [ih]; ring

lemma expPayoff_smul (dist : List (ℚ × ℚ)) (c : ℚ) (P : ℚ → ℚ) :
    expPayoff dist (fun x => c * P x) = c * expPayoff dist P := by
  induction dist with
  | nil => simp [expPayoff]
  | cons p ps ih =>
    simp only [expPayoff, List.map_cons, List.sum_cons] at ih ⊢
    rw [ih]; ring

lemma expPayoff_const (dist : List (ℚ × ℚ)) (c : ℚ) :
    expPayoff dist (fun _ => c) = c * (dist.map Prod.fst).sum := by
  induction dist with
  | nil => simp [expPayoff]
  | cons p ps ih =>
    simp only [expPayoff, List.map_cons, List.sum_cons] at ih ⊢
    rw [ih]; ring

lemma max_sub_shift (a c : ℚ) (hc : 0 ≤ c) :
    max a 0 ≤ max (a - c) 0 + c := by
  rcases le_total a 0 with h | h
  · have h2 : (0 : ℚ) ≤ max (a - c) 0 := le_max_right _ _
    rw [max_eq_right h]
    linarith
  · rw [max_eq_left h]
    have h1 : a - c ≤ max (a - c) 0 := le_max_left _ _
    linarith

/-- C7: for a nonnegative discount factor and a risk-neutral distribution
with nonnegative weights summing to one, nonnegative outcomes and the
martingale property disc * E[X] = 1 (the drift-compensation invariant of the
spec), the put price is non-increasing in the spot and non-decreasing in the
strike, and the call price is non-decreasing in the spot and non-increasing
in the strike. -/
theorem fourier_price_monotonicity (disc : ℚ) (dist : List (ℚ × ℚ))
    (hdisc : 0 ≤ disc) (hw : ∀ p ∈ dist, 0 ≤ p.1) (hx : ∀ p ∈ dist, 0 ≤ p.2)
    (hsum : (dist.map Prod.fst).sum = 1)
    (hmart : disc * expPayoff dist (fun x => x) = 1) :
    (∀ S0 S0' K, S0 ≤ S0' → putPrice disc dist S0' K ≤ putPrice disc dist S0 K) ∧
    (∀ S0 K K', K ≤ K' → putPrice disc dist S0 K ≤ putPrice disc dist S0 K') ∧
    (∀ S0 S0' K, S0 ≤ S0' → callPrice disc dist S0 K ≤ callPrice disc dist S0' K) ∧
    (∀ S0 K K', K ≤ K' → callPrice disc dist S0 K' ≤ callPrice disc dist S0 K) := by
  have put_spot : ∀ S0 S0' K, S0 ≤ S0' →
      putPrice disc dist S0' K ≤ putPrice disc dist S0 K := by
    intro S0 S0' K hS
    unfold putPrice
    refine mul_le_mul_of_nonneg_left (expPayoff_mono dist _ _ hw ?_) hdisc
    intro p hp
    have hxp : 0 ≤ p.2 := hx p hp
    have : K - S0' * p.2 ≤ K - S0 * p.2 := by nlinarith
    exact max_le_max this le_rfl
  have put_strike : ∀ S0 K K', K ≤ K' →
      putPrice disc dist S0 K ≤ putPrice disc dist S0 K' := by
    intro S0 K K' hK
    unfold putPrice
    refine mul_le_mul_of_nonneg_left (expPayoff_mono dist _ _ hw ?_) hdisc
    intro p hp
    exact max_le_max (by linarith) le_rfl
  have call_spot : ∀ S0 S0' K, S0 ≤ S0' →
      callPrice disc dist S0 K ≤ callPrice disc dist S0' K := by
    intro S0 S0' K hS
    unfold callPrice putPrice
    have key : expPayoff dist (fun x => max (K - S0 * x) 0) ≤
        expPayoff dist (fun x => max (K - S0' * x) 0 + (S0' - S0) * x) := by
      refine expPayoff_mono dist _ _ hw ?_
      intro p hp
      have hxp : 0 ≤ p.2 := hx p hp
      have hc : 0 ≤ (S0' - S0) * p.2 := by nlinarith
      have h1 := max_sub_shift (K - S0 * p.2) ((S0' - S0) * p.2) hc
      have h2 : K - S0 * p.2 - (S0' - S0) * p.2 = K - S0' * p.2 := by ring
      rw [h2] at h1
      exact h1
    rw [expPayoff_add, expPayoff_smul] at key
    have hd : disc * expPayoff dist (fun x => max (K - S0 * x) 0) ≤
        disc * (expPayoff dist (fun x => max (K - S0' * x) 0) +
          (S0' - S0) * expPayoff dist (fun x => x)) :=
      mul_le_mul_of_nonneg_left key hdisc
    nlinarith [hmart]
  have call_strike : ∀ S0 K K', K ≤ K' →
      callPrice disc dist S0 K' ≤ callPrice disc dist S0 K := by
    intro S0 K K' hK
    unfold callPrice putPrice
    have key : expPayoff dist (fun x => max (K' - S0 * x) 0) ≤
        expPayoff dist (fun x => max (K - S0 * x) 0 + (K' - K)) := by
      refine expPayoff_mono dist _ _ hw ?_
      intro p hp
      have h1 := max_sub_shift (K' - S0 * p.2) (K' - K) (by linarith)
      have h2 : K' - S0 * p.2 - (K' - K) = K - S0 * p.2 := by ring
      rw [h2] at h1
      exact h1
    rw [expPayoff_add, expPayoff_const, hsum] at key
    have hd : disc * expPayoff dist (fun x => max (K' - S0 * x) 0) ≤
        disc * (expPayoff dist (fun x => max (K - S0 * x) 0) + (K' - K) * 1) :=
      mul_le_mul_of_nonneg_left key hdisc
    nlinarith
  exact ⟨put_spot, put_strike, call_spot, call_strike⟩

/-- C7 witness: the monotonicity statement applied to a concrete martingale
two-point distribution (weights 1/2 at outcomes 1/2 and 3/2, discount 1)
at spots 100 ≤ 110 and strikes 100 ≤ 110. -/
theorem fourier_price_monotonicity_witness :
    putPrice 1 [(1/2, 1/2), (1/2, 3/2)] 110 100 ≤
      putPrice 1 [(1/2, 1/2), (1/2, 3/2)] 100 100 ∧
    putPrice 1 [(1/2, 1/2), (1/2, 3/2)] 100 100 ≤
      putPrice 1 [(1/2, 1/2), (1/2, 3/2)] 100 110 ∧
    callPrice 1 [(1/2, 1/2), (1/2, 3/2)] 100 100 ≤
      callPrice 1 [(1/2, 1/2), (1/2, 3/2)] 110 100 ∧
    callPrice 1 [(1/2, 1/2), (1/2, 3/2)] 100 110 ≤
      callPrice 1 [(1/2, 1/2), (1/2, 3/2)] 100 100 := by
  have h := fourier_price_monotonicity 1 [(1/2, 1/2), (1/2, 3/2)]
    (by norm_num)
    (by intro p hp; simp at hp; rcases hp with h | h <;> norm_num [h])
    (by intro p hp; simp at hp; rcases hp with h | h <;> norm_num [h])
    (by simp; norm_num)
    (by simp [expPayoff]; norm_num)
  exact ⟨h.1 100 110 100 (by norm_num), h.2.1 100 100 110 (by norm_num),
    h.2.2.1 100 110 100 (by norm_num), h.2.2.2 100 100 110 (by norm_num)⟩
